import Mathlib

/-!
# Verification of the `kube-cloudflare-dns` reconciliation engine

A shallow embedding, in Lean 4, of the Rust sources of the
`kube-cloudflare-dns` controller (files `src/lib.rs`, `src/api.rs`,
`src/resource.rs`, `src/plan.rs`, `src/main.rs`), together with theorems
settling the specification claims about the differ, the desired-state
computation, the resource cache, plan execution and the provider response
envelope.

Conventions of the embedding:
* Rust `Vec<T>` and slices become `List T`; `HashSet`/`HashMap` used only
  through `contains`/`insert`/iteration become lists with the matching
  membership and insert-or-replace semantics.
* Fallible or panicking code returns `Option`/`Except`; a panic
  (`unwrap` on `None`) is the value `none`.
* `std::net::IpAddr::from_str` is embedded as an executable parser over
  the string's character list, following the Rust standard library's
  grammar (strict dotted-decimal IPv4, RFC-4291 IPv6 with at most one
  `::` and an optional trailing embedded IPv4 quad).
-/

namespace KubeDns

/-- `APP_NAME` from `src/lib.rs`: the controller identity used as the
content of ownership marker TXT records. -/
def APP_NAME : String := "kube-cloudflare-dns"

/-- `HOSTNAME_LABEL` from `src/lib.rs`: the annotation key selecting
service resources. -/
def HOSTNAME_LABEL : String := "kube-cloudflare-dns.github.com/hostname"

/-- `Record` from `src/api.rs`: a DNS record as exchanged with the
provider.  The Rust field `_type` (serialized as `type`) keeps its name. -/
structure Record where
  id : String
  _type : String
  name : String
  content : String
deriving DecidableEq, Repr

/-- `PlanAction` from `src/plan.rs`. -/
inductive PlanAction where
  | Add (record : Record)
  | Delete (record : Record)
  | Update (record : Record)
deriving DecidableEq, Repr

/-- The record carried by a plan action. -/
def PlanAction.record : PlanAction → Record
  | .Add r => r
  | .Delete r => r
  | .Update r => r

/-- `true` exactly for the mutating actions (`Update`, `Delete`). -/
def PlanAction.isMutation : PlanAction → Bool
  | .Add _ => false
  | .Delete _ => true
  | .Update _ => true

/-- `true` exactly for `Add` and `Update` actions. -/
def PlanAction.isAddOrUpdate : PlanAction → Bool
  | .Add _ => true
  | .Delete _ => false
  | .Update _ => true

/-- The inner `find` helper of `plan` in `src/plan.rs`: first record of
`records` matching `record` on `(type, name)`. -/
def find_record (records : List Record) (record : Record) : Option Record :=
  records.find? (fun r => r._type == record._type && r.name == record.name)

/-- The `managed` set of `plan` in `src/plan.rs`: names carried by an
actual TXT record whose content equals `APP_NAME`. -/
def managed_names (actual : List Record) : List String :=
  (actual.filter (fun r => r._type == "TXT" && r.content == APP_NAME)).map (fun r => r.name)

/-- The `not_managed` set of `plan` in `src/plan.rs`: names of actual
records whose name is not in the managed set. -/
def not_managed_names (actual : List Record) : List String :=
  (actual.filter (fun r => !((managed_names actual).contains r.name))).map (fun r => r.name)

/-- `plan` from `src/plan.rs`: the ownership-protocol diff.  The first
pass walks `expected` in order (emitting `Update`/`Add`, skipping
conflicts), the second pass walks `actual` in order emitting `Delete`
for managed records with no expected counterpart. -/
def plan (expected actual : List Record) : List PlanAction :=
  (expected.filterMap (fun record =>
    match find_record actual record with
    | some existing =>
      if !((managed_names actual).contains record.name) then
        none
      else if record.content != existing.content then
        some (.Update { record with id := existing.id })
      else
        none
    | none =>
      if (not_managed_names actual).contains record.name then
        none
      else
        some (.Add record)))
  ++ ((actual.filter (fun r =>
        (managed_names actual).contains r.name && (find_record expected r).isNone)).map
      (fun r => PlanAction.Delete r))

/-- Helper: `List.contains` agrees with membership for strings. -/
theorem contains_names_iff (l : List String) (s : String) :
    l.contains s = true ↔ s ∈ l := by
  simp [List.contains_iff_exists_mem_beq, beq_iff_eq]

/-- C1: Ownership safety of the differ.  Every `Update` or `Delete`
action produced by `plan expected actual` targets a record whose name is
in the managed-name set derived from `actual` (names carried by an
actual TXT record whose content is the controller marker `APP_NAME`);
records on unmanaged names are never mutated or deleted. -/
theorem plan_ownership_safety (expected actual : List Record) (act : PlanAction)
    (hmem : act ∈ plan expected actual) (hmut : act.isMutation = true) :
    act.record.name ∈ managed_names actual := by
  unfold plan at hmem
  rcases List.mem_append.1 hmem with h | h
  · obtain ⟨r, hr, hf⟩ := List.mem_filterMap.1 h
    split at hf
    · split at hf
      · exact absurd hf (by simp)
      · split at hf
        · obtain rfl := Option.some_injective _ hf
          rename_i hnot _
          have hc : (managed_names actual).contains r.name = true := by
            simpa using hnot
          simpa [PlanAction.record] using (contains_names_iff _ _).1 hc
        · exact absurd hf (by simp)
    · split at hf
      · exact absurd hf (by simp)
      · obtain rfl := Option.some_injective _ hf
        simp [PlanAction.isMutation] at hmut
  · obtain ⟨r, hr, rfl⟩ := List.mem_map.1 h
    obtain ⟨hmemr, hpred⟩ := List.mem_filter.1 hr
    rw [Bool.and_eq_true] at hpred
    simpa [PlanAction.record] using (contains_names_iff _ _).1 hpred.1

/-- Sample desired A record for `app.example.com`. -/
def recA_new : Record := { id := "", _type := "A", name := "app.example.com", content := "10.0.0.1" }

/-- Sample actual A record for `app.example.com` with a stale content. -/
def recA_old : Record := { id := "id-a", _type := "A", name := "app.example.com", content := "10.0.0.9" }

/-- Sample actual ownership marker for `app.example.com`. -/
def recMarker : Record := { id := "id-t", _type := "TXT", name := "app.example.com", content := APP_NAME }

/-- Witness for C1: a concrete plan containing an `Update`, whose target
name is indeed in the managed set. -/
theorem plan_ownership_safety_witness :
    PlanAction.Update { id := "id-a", _type := "A", name := "app.example.com", content := "10.0.0.1" }
        ∈ plan [recA_new] [recA_old, recMarker] ∧
    (PlanAction.Update { id := "id-a", _type := "A", name := "app.example.com", content := "10.0.0.1" }).record.name
        ∈ managed_names [recA_old, recMarker] :=
  ⟨by decide, plan_ownership_safety [recA_new] [recA_old, recMarker] _ (by decide) (by decide)⟩

/-- C8: Conflict avoidance of the differ.  If `actual` holds a record at
name `N` with no co-located marker record (so `N` is unmanaged) while
`expected` also wants a record at `N`, then no `Add` and no `Update` of
`plan expected actual` targets `N`. -/
theorem plan_conflict_avoidance (expected actual : List Record) (N : String) (a0 : Record)
    (ha : a0 ∈ actual) (haname : a0.name = N)
    (hnonmarker : ¬(a0._type = "TXT" ∧ a0.content = APP_NAME))
    (hnomarker : ∀ m ∈ actual, m.name = N → ¬(m._type = "TXT" ∧ m.content = APP_NAME))
    (hexp : ∃ e ∈ expected, e.name = N)
    (act : PlanAction) (hmem : act ∈ plan expected actual)
    (hk : act.isAddOrUpdate = true) :
    act.record.name ≠ N := by
  have hNnotman : N ∉ managed_names actual := by
    intro hN
    obtain ⟨m, hmf, hmn⟩ := List.mem_map.1 hN
    obtain ⟨hma, hmp⟩ := List.mem_filter.1 hmf
    rw [Bool.and_eq_true, beq_iff_eq, beq_iff_eq] at hmp
    exact hnomarker m hma hmn ⟨hmp.1, hmp.2⟩
  have hNnm : N ∈ not_managed_names actual := by
    refine List.mem_map.2 ⟨a0, List.mem_filter.2 ⟨ha, ?_⟩, haname⟩
    rw [haname]
    cases hb : (managed_names actual).contains N with
    | false => rfl
    | true => exact absurd ((contains_names_iff _ _).1 hb) hNnotman
  intro hname
  unfold plan at hmem
  rcases List.mem_append.1 hmem with h | h
  · obtain ⟨r, hr, hf⟩ := List.mem_filterMap.1 h
    split at hf
    · split at hf
      · exact absurd hf (by simp)
      · split at hf
        · obtain rfl := Option.some_injective _ hf
          rename_i hnot _
          have hc : (managed_names actual).contains r.name = true := by
            simpa using hnot
          have hrn : r.name = N := by simpa [PlanAction.record] using hname
          rw [hrn] at hc
          exact hNnotman ((contains_names_iff _ _).1 hc)
        · exact absurd hf (by simp)
    · split at hf
      · exact absurd hf (by simp)
      · obtain rfl := Option.some_injective _ hf
        rename_i hnc
        have hrn : r.name = N := by simpa [PlanAction.record] using hname
        rw [hrn] at hnc
        exact hnc ((contains_names_iff _ _).2 hNnm)
  · obtain ⟨r, hr, rfl⟩ := List.mem_map.1 h
    simp [PlanAction.isAddOrUpdate] at hk

/-- A foreign (unmanaged) actual A record at `web.example.com`. -/
def recForeign : Record := { id := "id-f", _type := "A", name := "web.example.com", content := "192.0.2.7" }

/-- A desired A record colliding with the foreign name `web.example.com`. -/
def recForeignExp : Record := { id := "", _type := "A", name := "web.example.com", content := "10.0.0.3" }

/-- Witness for C8: in a plan over an actual set holding a foreign
record at `web.example.com`, the one `Add` action targets a different
name. -/
theorem plan_conflict_avoidance_witness :
    PlanAction.Add recA_new ∈ plan [recForeignExp, recA_new] [recForeign, recMarker] ∧
    (PlanAction.Add recA_new).record.name ≠ "web.example.com" :=
  ⟨by decide,
   plan_conflict_avoidance [recForeignExp, recA_new] [recForeign, recMarker]
     "web.example.com" recForeign (by decide) (by decide) (by decide) (by decide)
     (by decide) (PlanAction.Add recA_new) (by decide) (by decide)⟩

/-- A pair of actual/expected records that agree on type, name and
content; the actual side may carry a resolved provider id. -/
def same_resolved (a e : Record) : Prop :=
  a._type = e._type ∧ a.name = e.name ∧ a.content = e.content

/-- Two records with different `(type, name)` keys. -/
def distinct_key (r s : Record) : Prop :=
  ¬(r._type = s._type ∧ r.name = s.name)

instance : DecidableRel distinct_key := fun r s => by
  unfold distinct_key
  infer_instance

/-- If `actual` resolves `expected` elementwise and `expected` has
pairwise distinct `(type, name)` keys, then the first `(type, name)`
match that `find_record` returns for an expected record has that
record's content. -/
theorem find_record_resolved (r : Record) :
    ∀ (expected actual : List Record), List.Forall₂ same_resolved actual expected →
      expected.Pairwise distinct_key → r ∈ expected →
      ∃ a, find_record actual r = some a ∧ a.content = r.content := by
  intro expected
  induction expected with
  | nil => intro actual _ _ hr; cases hr
  | cons e E ih =>
    intro actual h hp hr
    cases h with
    | cons hae hAE =>
      rename_i a A
      rcases List.mem_cons.1 hr with rfl | hrtail
      · have hpa : (a._type == r._type && a.name == r.name) = true := by
          rw [Bool.and_eq_true, beq_iff_eq, beq_iff_eq]
          exact ⟨hae.1, hae.2.1⟩
        refine ⟨a, ?_, hae.2.2⟩
        simp [find_record, List.find?, hpa]
      · have hpa : (a._type == r._type && a.name == r.name) = false := by
          cases hcon : (a._type == r._type && a.name == r.name) with
          | false => rfl
          | true =>
            exfalso
            rw [Bool.and_eq_true, beq_iff_eq, beq_iff_eq] at hcon
            refine (List.pairwise_cons.1 hp).1 r hrtail ⟨?_, ?_⟩
            · rw [← hae.1]; exact hcon.1
            · rw [← hae.2.1]; exact hcon.2
        obtain ⟨a2, hfind2, hc2⟩ := ih A hAE (List.pairwise_cons.1 hp).2 hrtail
        refine ⟨a2, ?_, hc2⟩
        simp only [find_record, List.find?, hpa]
        simpa [find_record] using hfind2

/-- If `actual` resolves `expected` elementwise, every actual record has
a `(type, name)` counterpart in `expected`. -/
theorem find_record_resolved_isSome (a : Record) :
    ∀ (expected actual : List Record), List.Forall₂ same_resolved actual expected →
      a ∈ actual → (find_record expected a).isSome = true := by
  intro expected actual h
  induction h with
  | nil => intro ha; cases ha
  | cons hae hAE ih =>
    rename_i a' e A E
    intro ha
    rcases List.mem_cons.1 ha with rfl | ht
    · have hpa : (e._type == a._type && e.name == a.name) = true := by
        rw [Bool.and_eq_true, beq_iff_eq, beq_iff_eq]
        exact ⟨hae.1.symm, hae.2.1.symm⟩
      simp [find_record, List.find?, hpa]
    · cases hb : (e._type == a._type && e.name == a.name) with
      | true => simp [find_record, List.find?, hb]
      | false =>
        have htail := ih ht
        simp only [find_record, List.find?, hb]
        simpa [find_record] using htail

/-- C2 (amended): idempotence of the differ.  If the expected set `E`
has pairwise distinct `(type, name)` keys and already contains the
ownership marker for each of its names (so that `E` unioned with the
markers implied by `E` is `E` itself), and the actual set is exactly `E`
with provider ids resolved (agreeing elementwise on type, name and
content), then the plan is empty. -/
theorem plan_idempotent (expected actual : List Record)
    (huniq : expected.Pairwise distinct_key)
    (hmarkers : ∀ r ∈ expected, ∃ m ∈ expected,
      m._type = "TXT" ∧ m.name = r.name ∧ m.content = APP_NAME)
    (hresolved : List.Forall₂ same_resolved actual expected) :
    plan expected actual = [] := by
  unfold plan
  refine List.append_eq_nil.2 ⟨?_, ?_⟩
  · rw [List.filterMap_eq_nil]
    intro r hr
    obtain ⟨a, hfind, hcontent⟩ := find_record_resolved r expected actual hresolved huniq hr
    rw [hfind]
    simp [hcontent]
  · rw [List.map_eq_nil, List.filter_eq_nil]
    intro a ha
    have hsome := find_record_resolved_isSome a expected actual hresolved ha
    obtain ⟨v, hv⟩ := Option.isSome_iff_exists.1 hsome
    simp [hv]

/-- The desired-side ownership marker for `app.example.com`. -/
def desired_marker : Record := { id := "", _type := "TXT", name := "app.example.com", content := APP_NAME }

/-- The actual-side resolved counterpart of `recA_new`. -/
def recA_resolved : Record := { id := "id-a", _type := "A", name := "app.example.com", content := "10.0.0.1" }

/-- A second desired A record on the same name (round-robin address). -/
def recA2_new : Record := { id := "", _type := "A", name := "app.example.com", content := "10.0.0.2" }

/-- The actual-side resolved counterpart of `recA2_new`. -/
def recA2_resolved : Record := { id := "id-b", _type := "A", name := "app.example.com", content := "10.0.0.2" }

/-- Witness for C2 (amended): a converged expected/actual pair (one A
record, its marker, ids resolved) yields the empty plan. -/
theorem plan_idempotent_witness :
    plan [recA_new, desired_marker] [recA_resolved, recMarker] = [] :=
  plan_idempotent [recA_new, desired_marker] [recA_resolved, recMarker]
    (by decide) (by decide)
    (List.Forall₂.cons ⟨rfl, rfl, rfl⟩ (List.Forall₂.cons ⟨rfl, rfl, rfl⟩ List.Forall₂.nil))

/-- Counterexample for C2 as stated.  Both inputs satisfy the claim's
construction — the actual set is the expected set unioned with exactly
the markers implied by it, provider ids resolved — yet the plan is not
empty.  First input: `E` without its own marker record, so the union
adds a marker that the differ then deletes.  Second input: `E` with two
A records on one name (a multi-address host), where the first
`(type, name)` match has the wrong content and the differ emits a
spurious `Update`. -/
theorem plan_idempotent_counterexample :
    plan [recA_new] [recA_resolved, recMarker] ≠ [] ∧
    plan [recA_new, recA2_new, desired_marker]
         [recA_resolved, recA2_resolved, recMarker] ≠ [] := by
  decide

/-- Kind of a successfully parsed IP address (`IpAddr::V4` / `IpAddr::V6`). -/
inductive IpKind where
  | v4
  | v6
deriving DecidableEq, Repr

/-- Split a character list on a separator character; always returns at
least one (possibly empty) group. -/
def splitOnChar (sep : Char) : List Char → List (List Char)
  | [] => [[]]
  | c :: rest =>
    match splitOnChar sep rest with
    | g :: gs => if c = sep then [] :: g :: gs else (c :: g) :: gs
    | [] => [[c]]

/-- Decimal value of a digit list. -/
def decToNat (g : List Char) : Nat :=
  g.foldl (fun n c => n * 10 + (c.toNat - '0'.toNat)) 0

/-- One octet of the Rust standard-library IPv4 grammar: one to three
decimal digits, no leading zero, value at most 255. -/
def validOctet (g : List Char) : Bool :=
  match g with
  | [] => false
  | c :: rest =>
    (c :: rest).all Char.isDigit && (c :: rest).length ≤ 3 &&
      (c != '0' || rest.isEmpty) && decToNat (c :: rest) ≤ 255

/-- The Rust standard-library IPv4 grammar: four dot-separated octets. -/
def is_ipv4 (cs : List Char) : Bool :=
  match splitOnChar '.' cs with
  | [a, b, c, d] => validOctet a && validOctet b && validOctet c && validOctet d
  | _ => false

/-- Hexadecimal digit as accepted by the Rust IPv6 parser. -/
def isHexChar (c : Char) : Bool :=
  c.isDigit || (decide ('a' ≤ c) && decide (c ≤ 'f')) || (decide ('A' ≤ c) && decide (c ≤ 'F'))

/-- One 16-bit group of the IPv6 grammar: one to four hex digits. -/
def hexGroup (g : List Char) : Bool :=
  !g.isEmpty && g.length ≤ 4 && g.all isHexChar

/-- Split a character list at the first `::`, if any. -/
def splitDoubleColon : List Char → List Char × Option (List Char)
  | ':' :: ':' :: rest => ([], some rest)
  | c :: rest =>
    let p := splitDoubleColon rest
    (c :: p.1, p.2)
  | [] => ([], none)

/-- Number of 16-bit units covered by a colon-separated group list; the
final group may be an embedded IPv4 quad (two units) when `finalV4`. -/
def groupUnits (gs : List (List Char)) (finalV4 : Bool) : Option Nat :=
  match gs with
  | [] => some 0
  | [g] =>
    if hexGroup g then some 1
    else if finalV4 && is_ipv4 g then some 2
    else none
  | g :: rest =>
    if hexGroup g then (groupUnits rest finalV4).map (fun n => n + 1)
    else none

/-- The Rust standard-library IPv6 grammar: eight 16-bit units, or at
most seven units around a single `::`, with an optional trailing
embedded IPv4 quad. -/
def is_ipv6 (cs : List Char) : Bool :=
  match splitDoubleColon cs with
  | (head, none) =>
    match groupUnits (splitOnChar ':' head) true with
    | some n => n == 8
    | none => false
  | (head, some tail) =>
    let hgs := if head.isEmpty then [] else splitOnChar ':' head
    let tgs := if tail.isEmpty then [] else splitOnChar ':' tail
    match groupUnits hgs false, groupUnits tgs true with
    | some h, some t => decide (h + t ≤ 7)
    | _, _ => false

/-- `std::net::IpAddr::from_str` as used by `records_for_hostname` in
`src/plan.rs`: classifies a string as IPv4, IPv6, or unparseable. -/
def IpAddr.from_str (s : String) : Option IpKind :=
  if is_ipv4 s.data then some IpKind.v4
  else if is_ipv6 s.data then some IpKind.v6
  else none

/-- `records_for_hostname` from `src/plan.rs`: one address record per
parseable address (`A` for IPv4, `AAAA` for IPv6, unparseable entries
skipped), then one TXT marker — emitted whenever the incoming address
list is non-empty; an empty address list yields no records. -/
def records_for_hostname (hostname : String) (addresses : List String) : List Record :=
  if addresses.isEmpty then []
  else
    (addresses.filterMap (fun addr =>
      match IpAddr.from_str addr with
      | some IpKind.v4 => some { id := "", _type := "A", name := hostname, content := addr }
      | some IpKind.v6 => some { id := "", _type := "AAAA", name := hostname, content := addr }
      | none => none))
    ++ [{ id := "", _type := "TXT", name := hostname, content := APP_NAME }]

/-- The ownership marker record synthesized for a hostname. -/
def marker_record (hostname : String) : Record :=
  { id := "", _type := "TXT", name := hostname, content := APP_NAME }

/-- Counterexample for C3 as stated: a host whose single address does
not parse as an IP address still gets its TXT ownership marker emitted
(the claim says such a host gets no records at all). -/
theorem records_for_hostname_counterexample :
    IpAddr.from_str "not-an-ip" = none ∧
    records_for_hostname "ghost.example.com" ["not-an-ip"] =
      [marker_record "ghost.example.com"] := by
  decide

/-- C3 (amended): `records_for_hostname` emits no records exactly when
the incoming address list is empty, and emits the TXT ownership marker
exactly when the incoming address list is non-empty — even when no
entry of the list parses as a valid address. -/
theorem records_for_hostname_marker_iff (hostname : String) (addresses : List String) :
    (records_for_hostname hostname addresses = [] ↔ addresses = []) ∧
    (marker_record hostname ∈ records_for_hostname hostname addresses ↔ addresses ≠ []) := by
  by_cases hnil : addresses = []
  · subst hnil
    simp [records_for_hostname, marker_record]
  · have hemp : addresses.isEmpty = false := by
      cases addresses with
      | nil => exact absurd rfl hnil
      | cons a l => rfl
    constructor
    · simp [records_for_hostname, hemp, hnil]
    · simp [records_for_hostname, hemp, hnil, marker_record]

/-- Witness for C3 (amended): a host with one valid IPv4 address gets
the marker. -/
theorem records_for_hostname_marker_iff_witness :
    marker_record "app.example.com" ∈ records_for_hostname "app.example.com" ["10.0.0.1"] :=
  (records_for_hostname_marker_iff "app.example.com" ["10.0.0.1"]).2.mpr (by decide)

/-- `LoadBalancerIngress` (k8s): one load-balancer endpoint; only the
`ip` field is consumed. -/
structure LoadBalancerIngress where
  ip : Option String
deriving DecidableEq, Repr

/-- `LoadBalancerStatus` (k8s). -/
structure LoadBalancerStatus where
  ingress : Option (List LoadBalancerIngress)
deriving DecidableEq, Repr

/-- `ServiceSpec` (k8s): the fields consumed by `service_addresses`. -/
structure ServiceSpec where
  type_ : Option String
  cluster_ips : Option (List String)
deriving DecidableEq, Repr

/-- `ServiceStatus` (k8s). -/
structure ServiceStatus where
  load_balancer : Option LoadBalancerStatus
deriving DecidableEq, Repr

/-- `ObjectMeta` (k8s): the fields the controller consumes. -/
structure ObjectMeta where
  name : Option String
  namespace_ : Option String
  annotations : Option (List (String × String))
deriving DecidableEq, Repr

/-- `Service` (k8s). -/
structure Service where
  metadata : ObjectMeta
  spec : Option ServiceSpec
  status : Option ServiceStatus
deriving DecidableEq, Repr

/-- `IngressRule` (k8s): only the `host` field is consumed. -/
structure IngressRule where
  host : Option String
deriving DecidableEq, Repr

/-- `IngressSpec` (k8s). -/
structure IngressSpec where
  rules : Option (List IngressRule)
deriving DecidableEq, Repr

/-- `IngressStatus` (k8s). -/
structure IngressStatus where
  load_balancer : Option LoadBalancerStatus
deriving DecidableEq, Repr

/-- `Ingress` (k8s). -/
structure Ingress where
  metadata : ObjectMeta
  spec : Option IngressSpec
  status : Option IngressStatus
deriving DecidableEq, Repr

/-- `ingress_addresses` from `src/plan.rs`: the load-balancer ingress
IPs of an ingress resource, or empty. -/
def ingress_addresses (ingress : Ingress) : List String :=
  match ingress.status with
  | some { load_balancer := some { ingress := some ing } } => ing.filterMap LoadBalancerIngress.ip
  | _ => []

/-- `service_addresses` from `src/plan.rs`.  First match arm: a service
whose spec declares `type == "LoadBalancer"` and whose status reports a
load-balancer ingress list yields that list's IPs.  Second arm: a spec
with `cluster_ips` yields them.  Otherwise empty. -/
def service_addresses (service : Service) : List String :=
  let arm1 : Option (List LoadBalancerIngress) :=
    match service.spec, service.status with
    | some { type_ := some service_type, .. },
      some { load_balancer := some { ingress := some ingress } } =>
      if service_type = "LoadBalancer" then some ingress else none
    | _, _ => none
  match arm1 with
  | some ingress => ingress.filterMap LoadBalancerIngress.ip
  | none =>
    match service.spec with
    | some { cluster_ips := some ips, .. } => ips
    | _ => []

/-- The load-balancer-assigned address list a service reports, if any. -/
def reported_lb_ingress (s : Service) : Option (List LoadBalancerIngress) :=
  (s.status.bind ServiceStatus.load_balancer).bind LoadBalancerStatus.ingress

/-- The hostname annotation carried by a service, if any (the `if let`
chain of `compute_records` in `src/plan.rs`). -/
def annotation_hostname (service : Service) : Option String :=
  match service.metadata.annotations with
  | some annotations => List.lookup HOSTNAME_LABEL annotations
  | none => none

/-- Modelled from the amended claim for C7: use the load-balancer
ingress IPs exactly when the service's declared type is
`"LoadBalancer"` and a load-balancer ingress list is reported;
otherwise fall back to `cluster_ips` when present; otherwise empty. -/
def service_addresses_policy (s : Service) : List String :=
  if s.spec.bind ServiceSpec.type_ = some "LoadBalancer" ∧ (reported_lb_ingress s).isSome = true then
    ((reported_lb_ingress s).getD []).filterMap LoadBalancerIngress.ip
  else
    match s.spec.bind ServiceSpec.cluster_ips with
    | some ips => ips
    | none => []

/-- A `ClusterIP`-typed service that nevertheless reports a
load-balancer ingress address, with the hostname annotation set. -/
def svc_clusterip_with_lb : Service :=
  { metadata := { name := some "svc", namespace_ := some "default",
                  annotations := some [(HOSTNAME_LABEL, "app.example.com")] },
    spec := some { type_ := some "ClusterIP", cluster_ips := some ["10.0.0.1"] },
    status := some { load_balancer := some { ingress := some [{ ip := some "1.2.3.4" }] } } }

/-- Counterexample for C7 as stated: this annotated service reports a
load-balancer-assigned address list (`["1.2.3.4"]`), yet
`service_addresses` returns the cluster IPs instead, because the
service's declared type is not `"LoadBalancer"`. -/
theorem service_addresses_counterexample :
    annotation_hostname svc_clusterip_with_lb = some "app.example.com" ∧
    reported_lb_ingress svc_clusterip_with_lb = some [{ ip := some "1.2.3.4" }] ∧
    service_addresses svc_clusterip_with_lb = ["10.0.0.1"] ∧
    service_addresses svc_clusterip_with_lb ≠ ["1.2.3.4"] := by
  decide

/-- C7 (amended): `service_addresses` implements exactly the policy
"load-balancer ingress IPs when the declared service type is
`LoadBalancer` and an ingress list is reported; otherwise the cluster
IPs when present; otherwise empty". -/
theorem service_addresses_eq_policy (s : Service) :
    service_addresses s = service_addresses_policy s := by
  obtain ⟨meta, spec?, status?⟩ := s
  cases spec? with
  | none =>
    cases status? with
    | none => rfl
    | some st => rfl
  | some sp =>
    obtain ⟨ty?, cips?⟩ := sp
    cases ty? with
    | none =>
      cases status? with
      | none => cases cips? <;> rfl
      | some st => cases cips? <;> rfl
    | some ty =>
      cases status? with
      | none =>
        unfold service_addresses_policy
        rw [if_neg (by simp [reported_lb_ingress])]
        cases cips? <;> rfl
      | some st =>
        obtain ⟨lb?⟩ := st
        cases lb? with
        | none =>
          unfold service_addresses_policy
          rw [if_neg (by simp [reported_lb_ingress])]
          cases cips? <;> rfl
        | some lbs =>
          obtain ⟨ing?⟩ := lbs
          cases ing? with
          | none =>
            unfold service_addresses_policy
            rw [if_neg (by simp [reported_lb_ingress])]
            cases cips? <;> rfl
          | some ing =>
            by_cases hty : ty = "LoadBalancer"
            · subst hty
              simp [service_addresses, service_addresses_policy, reported_lb_ingress]
            · simp only [service_addresses, service_addresses_policy, reported_lb_ingress]
              rw [if_neg hty, if_neg (by simp [hty])]
              cases cips? <;> rfl

/-- Witness for C7 (amended): the policy agrees with the source on the
counterexample service. -/
theorem service_addresses_eq_policy_witness :
    service_addresses svc_clusterip_with_lb = service_addresses_policy svc_clusterip_with_lb :=
  service_addresses_eq_policy svc_clusterip_with_lb

/-- `WatchedResource` from `src/resource.rs`. -/
inductive WatchedResource where
  | Ingress (ingress : Ingress)
  | Service (service : Service)
deriving DecidableEq, Repr

/-- Records contributed by the rules of one ingress (the inner loop of
`compute_records` in `src/plan.rs`).  `rule.host.as_ref().unwrap()` is
a panic when the host is absent, modelled as `none`. -/
def records_for_rules (ingress : Ingress) : List IngressRule → Option (List Record)
  | [] => some []
  | rule :: rest =>
    match rule.host with
    | none => none
    | some host =>
      match records_for_rules ingress rest with
      | none => none
      | some more => some (records_for_hostname host (ingress_addresses ingress) ++ more)

/-- Records contributed by one watched resource (one iteration of the
`compute_records` loop in `src/plan.rs`). -/
def records_for_resource : WatchedResource → Option (List Record)
  | .Ingress ingress =>
    match ingress.spec with
    | some { rules := some rules } => records_for_rules ingress rules
    | _ => some []
  | .Service service =>
    some (match annotation_hostname service with
      | some hostname => records_for_hostname hostname (service_addresses service)
      | none => [])

/-- `compute_records` from `src/plan.rs`: concatenation of the records
of every resource, `none` when the ingress-rule host unwrap panics. -/
def compute_records : List WatchedResource → Option (List Record)
  | [] => some []
  | w :: rest =>
    match records_for_resource w with
    | none => none
    | some rs =>
      match compute_records rest with
      | none => none
      | some more => some (rs ++ more)

/-- The `expected` computation of the reconciliation loop in
`src/main.rs` (lines 81–88): `compute_records` filtered to names ending
in the configured zone name.  No deduplication is applied
(`dedupe_records` from `src/plan.rs` is never called). -/
def expected_records (resources : List WatchedResource) (zone_name : String) : Option (List Record) :=
  (compute_records resources).map (fun rs =>
    rs.filter (fun r => zone_name.data.isSuffixOf r.name.data))

/-- A `ClusterIP` service annotated with `app.example.com`, named
`svc-one`. -/
def svcDup1 : Service :=
  { metadata := { name := some "svc-one", namespace_ := some "default",
                  annotations := some [(HOSTNAME_LABEL, "app.example.com")] },
    spec := some { type_ := some "ClusterIP", cluster_ips := some ["10.0.0.1"] },
    status := none }

/-- A second, distinct service producing the identical records. -/
def svcDup2 : Service :=
  { metadata := { name := some "svc-two", namespace_ := some "default",
                  annotations := some [(HOSTNAME_LABEL, "app.example.com")] },
    spec := some { type_ := some "ClusterIP", cluster_ips := some ["10.0.0.1"] },
    status := none }

/-- C5: the expected-record list computed by the reconciliation loop
over two distinct resources that independently produce the identical
`(type, name, content)` record contains that record twice — the final
output is not deduplicated (`dedupe_records` exists in `src/plan.rs`
but is never invoked). -/
theorem expected_records_duplicate :
    ((expected_records [WatchedResource.Service svcDup1, WatchedResource.Service svcDup2]
        "example.com").getD []).count
      { id := "", _type := "A", name := "app.example.com", content := "10.0.0.1" } = 2 := by
  decide

/-- Every rule of every ingress in the list carries a host (the
implicit precondition of `compute_records`). -/
def ingress_hosts_present : WatchedResource → Bool
  | .Ingress ingress =>
    match ingress.spec with
    | some { rules := some rules } => rules.all (fun rule => rule.host.isSome)
    | _ => true
  | .Service _ => true

/-- The panic of `records_for_rules` happens exactly on a rule with an
absent host. -/
theorem records_for_rules_isSome (ingress : Ingress) (rules : List IngressRule) :
    (records_for_rules ingress rules).isSome = rules.all (fun rule => rule.host.isSome) := by
  induction rules with
  | nil => rfl
  | cons rule rest ih =>
    cases hh : rule.host with
    | none => simp [records_for_rules, hh]
    | some h =>
      cases hrec : records_for_rules ingress rest with
      | none =>
        rw [hrec] at ih
        simp [records_for_rules, hh, hrec, ← ih]
      | some more =>
        rw [hrec] at ih
        simp [records_for_rules, hh, hrec, ← ih]

/-- One resource's contribution is a panic exactly when the resource is
an ingress with a hostless rule. -/
theorem records_for_resource_isSome (w : WatchedResource) :
    (records_for_resource w).isSome = ingress_hosts_present w := by
  cases w with
  | Service s => rfl
  | Ingress i =>
    obtain ⟨imeta, ispec?, istatus?⟩ := i
    cases ispec? with
    | none => rfl
    | some sp =>
      obtain ⟨rules?⟩ := sp
      cases rules? with
      | none => rfl
      | some rules =>
        simp [records_for_resource, ingress_hosts_present, records_for_rules_isSome]

/-- An ingress whose single rule carries no host. -/
def hostless_ingress : Ingress :=
  { metadata := { name := some "ing", namespace_ := some "default", annotations := none },
    spec := some { rules := some [{ host := none }] },
    status := none }

/-- C10: `compute_records` is total exactly under the precondition that
every rule of every ingress carries a host; on an ingress whose rule
has no host it panics (returns `none`) rather than skipping the rule. -/
theorem compute_records_total_iff :
    (∀ resources : List WatchedResource,
      (compute_records resources).isSome = true ↔
        resources.all ingress_hosts_present = true) ∧
    compute_records [WatchedResource.Ingress hostless_ingress] = none := by
  constructor
  · intro resources
    induction resources with
    | nil => simp [compute_records]
    | cons w rest ih =>
      cases hw : records_for_resource w with
      | none =>
        have hpre : ingress_hosts_present w = false := by
          rw [← records_for_resource_isSome, hw]
          rfl
        simp [compute_records, hw, hpre]
      | some rs =>
        have hpre : ingress_hosts_present w = true := by
          rw [← records_for_resource_isSome, hw]
          rfl
        cases hrest : compute_records rest with
        | none =>
          rw [hrest] at ih
          simp only [Option.isSome_none, Bool.false_eq_true, false_iff] at ih
          simp [compute_records, hw, hrest, hpre, ih]
        | some more =>
          rw [hrest] at ih
          simp only [Option.isSome_some, true_iff] at ih
          simp [compute_records, hw, hrest, hpre, ih]
  · decide

/-- `CfError` from `src/api.rs`: application (`Api`) versus transport
errors; the opaque payloads become strings. -/
inductive CfError where
  | Api (msg : String)
  | Transport (msg : String)
deriving DecidableEq, Repr

/-- The plan-execution loop of `src/main.rs` (lines 102–110):
`for change in plan { ... cf_client.xxx(...).await? }`.  The provider
call is abstracted as `call`; the `?` operator propagates the first
error out of the loop.  The first component records the actions
actually attempted, in order; the second is the loop's outcome. -/
def run_plan (call : PlanAction → Except CfError Unit) :
    List PlanAction → List PlanAction × Except CfError Unit
  | [] => ([], Except.ok ())
  | a :: rest =>
    match call a with
    | Except.error e => ([a], Except.error e)
    | Except.ok _ =>
      let p := run_plan call rest
      (a :: p.1, p.2)

instance {ε α : Type} [DecidableEq ε] [DecidableEq α] : DecidableEq (Except ε α) := fun a b =>
  match a, b with
  | Except.error e, Except.error f =>
    if h : e = f then isTrue (by rw [h])
    else isFalse (fun hc => by injection hc with h2; exact h h2)
  | Except.ok x, Except.ok y =>
    if h : x = y then isTrue (by rw [h])
    else isFalse (fun hc => by injection hc with h2; exact h h2)
  | Except.error _, Except.ok _ => isFalse (fun hc => Except.noConfusion hc)
  | Except.ok _, Except.error _ => isFalse (fun hc => Except.noConfusion hc)

/-- A provider that rejects every mutation. -/
def call_always_fails : PlanAction → Except CfError Unit :=
  fun _ => Except.error (CfError.Api "boom")

/-- A provider that accepts exactly the `Add recA_new` mutation. -/
def call_fails_after_first : PlanAction → Except CfError Unit :=
  fun act => if act = PlanAction.Add recA_new then Except.ok () else Except.error (CfError.Api "boom")

/-- Counterexample for C4 as stated: with a failing provider, a
two-action plan has only its first action attempted — the failure on
the first action prevents the second from being attempted. -/
theorem run_plan_counterexample :
    (run_plan call_always_fails [PlanAction.Add recA_new, PlanAction.Add recForeignExp]).1 ≠
      [PlanAction.Add recA_new, PlanAction.Add recForeignExp] := by
  decide

/-- C4 (amended): plan execution attempts the actions sequentially in
plan order up to and including the first failing action, then aborts
the remainder of the plan with that error (the cycle's error is logged
and the loop proceeds to the next cycle). -/
theorem run_plan_stops_at_first_failure (call : PlanAction → Except CfError Unit)
    (xs ys : List PlanAction) (a : PlanAction) (e : CfError)
    (hxs : ∀ x ∈ xs, call x = Except.ok ()) (ha : call a = Except.error e) :
    run_plan call (xs ++ a :: ys) = (xs ++ [a], Except.error e) := by
  induction xs with
  | nil => simp [run_plan, ha]
  | cons x xs ih =>
    have hx : call x = Except.ok () := hxs x (List.mem_cons_self x xs)
    have htail := ih (fun y hy => hxs y (List.mem_cons_of_mem x hy))
    simp [run_plan, hx, htail]

/-- Witness for C4 (amended): one successful action, then a failure;
the third action is not attempted. -/
theorem run_plan_stops_at_first_failure_witness :
    run_plan call_fails_after_first
        [PlanAction.Add recA_new, PlanAction.Add recForeignExp, PlanAction.Add recA2_new] =
      ([PlanAction.Add recA_new, PlanAction.Add recForeignExp], Except.error (CfError.Api "boom")) :=
  run_plan_stops_at_first_failure call_fails_after_first
    [PlanAction.Add recA_new] [PlanAction.Add recA2_new] (PlanAction.Add recForeignExp)
    (CfError.Api "boom") (by decide) (by decide)

/-- `ResourceKey` from `src/resource.rs`. -/
structure ResourceKey where
  kind : String
  namespace_ : String
  name : String
deriving DecidableEq, Repr

/-- The shared `HashMap<ResourceKey, WatchedResource>` of `src/main.rs`,
as an association list: `insert` replaces the entry with an equal key
or appends a new one. -/
def cache_insert : List (ResourceKey × WatchedResource) → ResourceKey → WatchedResource →
    List (ResourceKey × WatchedResource)
  | [], key, res => [(key, res)]
  | e :: rest, key, res =>
    if e.1 = key then (key, res) :: rest else e :: cache_insert rest key res

/-- Map lookup on the association-list cache. -/
def cache_lookup : List (ResourceKey × WatchedResource) → ResourceKey → Option WatchedResource
  | [], _ => none
  | e :: rest, key => if e.1 = key then some e.2 else cache_lookup rest key

/-- The `Restarted(resources)` branch of `watcher` in `src/main.rs`
(lines 34–42): every listed resource is inserted under its key; nothing
is removed first.  The watcher is generic over the resource type, so
the key and conversion functions are parameters. -/
def handle_restarted {α : Type} (keyOf : α → ResourceKey) (toWatched : α → WatchedResource)
    (cache : List (ResourceKey × WatchedResource)) (resources : List α) :
    List (ResourceKey × WatchedResource) :=
  resources.foldl (fun m res => cache_insert m (keyOf res) (toWatched res)) cache

/-- One step of the resync fold. -/
theorem handle_restarted_cons {α : Type} (keyOf : α → ResourceKey)
    (toWatched : α → WatchedResource) (cache : List (ResourceKey × WatchedResource))
    (b : α) (rest : List α) :
    handle_restarted keyOf toWatched cache (b :: rest) =
      handle_restarted keyOf toWatched (cache_insert cache (keyOf b) (toWatched b)) rest := rfl

/-- Inserting under a different key leaves a lookup unchanged. -/
theorem cache_lookup_insert_ne (cache : List (ResourceKey × WatchedResource))
    (key key' : ResourceKey) (res : WatchedResource) (hne : key' ≠ key) :
    cache_lookup (cache_insert cache key' res) key = cache_lookup cache key := by
  induction cache with
  | nil => simp [cache_insert, cache_lookup, hne]
  | cons e rest ih =>
    by_cases he : e.1 = key'
    · simp [cache_insert, cache_lookup, he, hne]
    · by_cases hek : e.1 = key
      · simp [cache_insert, cache_lookup, he, hek, Ne.symm hne]
      · simp [cache_insert, cache_lookup, he, hek, ih]

/-- Looking up the just-inserted key yields the inserted value. -/
theorem cache_lookup_insert_self (cache : List (ResourceKey × WatchedResource))
    (key : ResourceKey) (res : WatchedResource) :
    cache_lookup (cache_insert cache key res) key = some res := by
  induction cache with
  | nil => simp [cache_insert, cache_lookup]
  | cons e rest ih =>
    by_cases he : e.1 = key
    · simp [cache_insert, cache_lookup, he]
    · simp [cache_insert, cache_lookup, he, ih]

/-- The resync fold never removes a present key. -/
theorem handle_restarted_preserves_isSome {α : Type} (keyOf : α → ResourceKey)
    (toWatched : α → WatchedResource) (resources : List α) :
    ∀ (cache : List (ResourceKey × WatchedResource)) (key : ResourceKey),
      (cache_lookup cache key).isSome = true →
      (cache_lookup (handle_restarted keyOf toWatched cache resources) key).isSome = true := by
  induction resources with
  | nil => intro cache key h; exact h
  | cons b rest ih =>
    intro cache key h
    rw [handle_restarted_cons]
    apply ih
    by_cases hk : key = keyOf b
    · subst hk
      rw [cache_lookup_insert_self]
      rfl
    · rw [cache_lookup_insert_ne cache key (keyOf b) (toWatched b) (fun he => hk he.symm)]
      exact h

/-- C6 (amended): processing a resync event upserts the listed
resources — each listed resource's key is present afterwards — while
every cache entry whose key is not among the listed resources' keys, of
the resynced kind or any other, is retained unchanged.  In particular,
stale entries of the resynced kind are NOT removed. -/
theorem handle_restarted_spec {α : Type} (keyOf : α → ResourceKey)
    (toWatched : α → WatchedResource) (cache : List (ResourceKey × WatchedResource))
    (resources : List α) :
    (∀ a ∈ resources,
      (cache_lookup (handle_restarted keyOf toWatched cache resources) (keyOf a)).isSome = true) ∧
    (∀ key : ResourceKey, (∀ a ∈ resources, keyOf a ≠ key) →
      cache_lookup (handle_restarted keyOf toWatched cache resources) key = cache_lookup cache key) := by
  constructor
  · intro a ha
    revert ha
    induction resources generalizing cache with
    | nil => intro ha; cases ha
    | cons b rest ih =>
      intro ha
      rw [handle_restarted_cons]
      rcases List.mem_cons.1 ha with rfl | hrest
      · refine handle_restarted_preserves_isSome keyOf toWatched rest _ (keyOf a) ?_
        rw [cache_lookup_insert_self]
        rfl
      · exact ih (cache_insert cache (keyOf b) (toWatched b)) hrest
  · intro key
    induction resources generalizing cache with
    | nil => intro _; rfl
    | cons b rest ih =>
      intro hnot
      rw [handle_restarted_cons]
      rw [ih (cache_insert cache (keyOf b) (toWatched b))
            (fun a ha => hnot a (List.mem_cons_of_mem b ha))]
      exact cache_lookup_insert_ne cache key (keyOf b) (toWatched b)
        (hnot b (List.mem_cons_self b rest))

/-- A minimal service value for cache entries. -/
def svc_empty : Service := { metadata := { name := none, namespace_ := none, annotations := none },
                             spec := none, status := none }

/-- A cache key of the service kind. -/
def key_stale : ResourceKey := { kind := "Service", namespace_ := "default", name := "stale-svc" }

/-- Counterexample for C6 as stated: a cache holding a service-kind
entry, resynced with an empty service list (the resource was deleted
while the watch was disconnected).  The claim requires the entry to be
gone; the code keeps it. -/
theorem handle_restarted_counterexample :
    cache_lookup
        (handle_restarted (fun p => p.1) (fun p : ResourceKey × WatchedResource => p.2)
          [(key_stale, WatchedResource.Service svc_empty)] [])
        key_stale = some (WatchedResource.Service svc_empty) := by
  decide

/-- Witness for C6 (amended): with one listed resource under a fresh
key, the stale entry under another key is retained unchanged. -/
theorem handle_restarted_spec_witness :
    cache_lookup
        (handle_restarted (fun p => p.1) (fun p : ResourceKey × WatchedResource => p.2)
          [(key_stale, WatchedResource.Service svc_empty)]
          [({ kind := "Service", namespace_ := "default", name := "fresh-svc" },
            WatchedResource.Service svc_empty)])
        key_stale =
      cache_lookup [(key_stale, WatchedResource.Service svc_empty)] key_stale :=
  (handle_restarted_spec (fun p => p.1) (fun p : ResourceKey × WatchedResource => p.2)
    [(key_stale, WatchedResource.Service svc_empty)]
    [({ kind := "Service", namespace_ := "default", name := "fresh-svc" },
      WatchedResource.Service svc_empty)]).2
    key_stale (by decide)

/-- `CfResponse` from `src/api.rs`; the opaque `errors` JSON value
becomes its serialized string. -/
structure CfResponse (T : Type) where
  success : Bool
  result : Option T
  errors : String

/-- `CfResponse::result` from `src/api.rs`.  `self.result.unwrap()` on
a successful envelope with an absent payload is a panic, modelled as
`none`; all other outcomes are `some` of the Rust method's return. -/
def CfResponse.toResult {T : Type} (r : CfResponse T) : Option (Except CfError T) :=
  if !r.success then some (Except.error (CfError.Api r.errors))
  else r.result.map Except.ok

/-- Counterexample for C9 as stated: the envelope combination
`success = true, result = absent` makes `CfResponse::result` panic
(`unwrap` on `None`) instead of returning normally. -/
theorem cfresponse_counterexample :
    ({ success := true, result := none, errors := "[]" } : CfResponse (List Record)).toResult
      = none := by
  rfl

/-- C9 (amended): unwrapping the envelope yields the `Api` error
carrying the serialized `errors` exactly when `success` is false;
when `success` is true it returns the payload if present and panics
(`none`) if the payload is absent. -/
theorem cfresponse_toResult_spec {T : Type} (r : CfResponse T) :
    (r.toResult = some (Except.error (CfError.Api r.errors)) ↔ r.success = false) ∧
    (∀ t : T, r.toResult = some (Except.ok t) ↔ r.success = true ∧ r.result = some t) ∧
    (r.toResult = none ↔ r.success = true ∧ r.result = none) := by
  cases hs : r.success with
  | false =>
    refine ⟨by simp [CfResponse.toResult, hs], fun t => ?_, by simp [CfResponse.toResult, hs]⟩
    simp [CfResponse.toResult, hs]
  | true =>
    cases hres : r.result with
    | none =>
      refine ⟨by simp [CfResponse.toResult, hs, hres], fun t => ?_,
        by simp [CfResponse.toResult, hs, hres]⟩
      simp [CfResponse.toResult, hs, hres]
    | some v =>
      refine ⟨by simp [CfResponse.toResult, hs, hres], fun t => ?_,
        by simp [CfResponse.toResult, hs, hres]⟩
      simp [CfResponse.toResult, hs, hres]

/-- Witness for C9 (amended): a failed envelope surfaces the `Api`
error. -/
theorem cfresponse_toResult_spec_witness :
    ({ success := false, result := none, errors := "[oops]" } : CfResponse Nat).toResult
      = some (Except.error (CfError.Api "[oops]")) :=
  (cfresponse_toResult_spec { success := false, result := none, errors := "[oops]" }).1.mpr rfl

end KubeDns
